import Mathlib

/-!
Verification development for the hbb-gui annotation tool.

JavaScript objects (string-keyed, insertion ordered, unique keys) are
modelled as association lists.  Loops of the shape
"for (entry of Object.entries(o)) if (p) next[k] = v" are modelled by
List.filter / List.map, which agree with the assignment loop on
unique-key lists; the one loop whose own logic can revisit a key
(the description remapping of MOVE_TAG_TO_MAJOR) is modelled by an
explicit fold with object assignment.  JavaScript string falsiness is
the test for the empty string.  Whitespace and lowercasing are modelled
by Char.isWhitespace / Char.toLower (the ASCII fragment of the
JavaScript semantics).
-/

namespace HbbGui

/-- Lookup in a JS object modelled as an association list (first match,
as in a unique-key object). -/
def objGet {α : Type} : List (String × α) → String → Option α
  | [], _ => none
  | p :: rest, k => if p.1 == k then some p.2 else objGet rest k

/-- Key-present test for a JS object. -/
def objHas {α : Type} (m : List (String × α)) (k : String) : Bool :=
  m.any (fun p => p.1 == k)

/-- JS object assignment o[k] = v: updates the first entry with that key in
place (keeping its position), otherwise appends the new entry; on the
unique-key lists that represent JS objects this is exactly the assignment
semantics. -/
def objSet {α : Type} : List (String × α) → String → α → List (String × α)
  | [], k, v => [(k, v)]
  | p :: rest, k, v => if p.1 == k then (k, v) :: rest else p :: objSet rest k v

/-- JS delete o[k] (also the rest-spread that drops one key). -/
def objDelete {α : Type} (m : List (String × α)) (k : String) : List (String × α) :=
  m.filter (fun p => !(p.1 == k))

/-- Whitespace trimming on both ends, the list-level model of
String.prototype.trim. -/
def trimChars (l : List Char) : List Char :=
  ((l.dropWhile Char.isWhitespace).reverse.dropWhile Char.isWhitespace).reverse

/-- s.trim() as a string function. -/
def jsTrim (s : String) : String :=
  String.mk (trimChars s.data)

/-- s.split("/") on the character list: splitting at every slash, keeping
empty segments, never returning an empty list. -/
def splitOnSlash : List Char → List (List Char)
  | [] => [[]]
  | c :: rest =>
    let r := splitOnSlash rest
    if c = '/' then [] :: r
    else
      match r with
      | [] => [[c]]
      | h :: t => (c :: h) :: t

/-- parts.join("/") on character lists. -/
def joinSlash : List (List Char) → List Char
  | [] => []
  | [x] => x
  | x :: y :: rest => x ++ '/' :: joinSlash (y :: rest)

/-- s.startsWith(pre). -/
def jsStartsWith (s pre : String) : Bool :=
  pre.data.isPrefixOf s.data

/-- JSON values, for the document store behind the /api/annotations route. -/
inductive JsonVal where
  | null
  | bool (b : Bool)
  | num (n : Int)
  | str (s : String)
  | arr (elems : List JsonVal)
  | obj (fields : List (String × JsonVal))

/-- typeof v === "string" -/
def isStr : JsonVal → Bool
  | .str _ => true
  | _ => false

/-- typeof v === "number" -/
def isNum : JsonVal → Bool
  | .num _ => true
  | _ => false

/-- isRecord: a non-null, non-array object. -/
def isRecordVal : JsonVal → Bool
  | .obj _ => true
  | _ => false

/-- Array.isArray(v) and every element is a string. -/
def isStrArr : JsonVal → Bool
  | .arr xs => xs.all isStr
  | _ => false

/-- Reads field k of an object and applies the type test; an absent field
fails the test (undefined in JS). -/
def fieldIs (fields : List (String × JsonVal)) (k : String) (p : JsonVal → Bool) : Bool :=
  match objGet fields k with
  | some v => p v
  | none => false

/-- isValidProjectData on an already-destructured object
(src/app/api/annotations/route.ts, isValidProjectData). -/
def isValidFields (fields : List (String × JsonVal)) : Bool :=
  fieldIs fields "modelName" isStr &&
  fieldIs fields "numLayers" isNum &&
  fieldIs fields "numHeads" isNum &&
  fieldIs fields "annotations" isRecordVal &&
  fieldIs fields "tags" isStrArr &&
  fieldIs fields "createdAt" isStr

/-- isValidProjectData (src/app/api/annotations/route.ts): a record whose
modelName is a string, numLayers and numHeads are numbers, annotations is a
record, tags an array of strings and createdAt a string. -/
def isValidProjectData : JsonVal → Bool
  | .obj fields => isValidFields fields
  | _ => false

/-- getUpdatedAt (src/app/api/annotations/route.ts): the updatedAt field
when it is a string, null otherwise. -/
def getUpdatedAt (data : List (String × JsonVal)) : Option String :=
  match objGet data "updatedAt" with
  | some (.str s) => some s
  | _ => none

/-- Result of readCurrentData: the stored document, missing, or invalid. -/
inductive ReadResult where
  | ok (data : List (String × JsonVal))
  | missing
  | invalid

/-- Outcome of the PUT handler, by response class. -/
inductive PutOutcome where
  | putOk (payload : List (String × JsonVal))
  | invalidBody
  | storedInvalid
  | preconditionRequired (currentUpdatedAt : String)
  | conflict (currentUpdatedAt : String)

/-- Header extraction req.headers.get("if-match-updated-at")?.trim() || null:
an absent or whitespace-only header becomes null. -/
def headerValue : Option String → Option String
  | none => none
  | some h => if jsTrim h == "" then none else some (jsTrim h)

/-- The payload stamping of PUT: spread the validated body, overwrite
updatedAt with the server clock, keep createdAt when it is a string,
otherwise stamp it too. -/
def stampPayload (fields : List (String × JsonVal)) (now : String) : List (String × JsonVal) :=
  let withUpdated := objSet fields "updatedAt" (.str now)
  let createdVal : JsonVal :=
    match objGet fields "createdAt" with
    | some (.str s) => .str s
    | _ => .str now
  objSet withUpdated "createdAt" createdVal

/-- The accepting tail of PUT: stamp the payload, persist it (blob or local
file backend: the store now holds the payload), respond 200 with it. -/
def putAccept (fields : List (String × JsonVal)) (now : String) : PutOutcome × ReadResult :=
  let payload := stampPayload fields now
  (.putOk payload, .ok payload)

/-- Core of the PUT handler of src/app/api/annotations/route.ts after the
origin/token/size guards: validate the body, read the store, apply the
optimistic-concurrency checks, then stamp and persist.  Both checks are
guarded by the JS truthiness of currentUpdatedAt
(if (currentUpdatedAt && ...)): a stored updatedAt that is the empty
string is falsy, so both checks are skipped exactly as when it is null.
Modelled for the blob / local-file backends, where a passing check is
followed by an unconditional write. -/
def putCore (stored : ReadResult) (header : Option String) (body : JsonVal)
    (now : String) : PutOutcome × ReadResult :=
  match body with
  | .obj fields =>
    if !(isValidFields fields) then (.invalidBody, stored)
    else
      match stored with
      | .invalid => (.storedInvalid, .invalid)
      | .missing => putAccept fields now
      | .ok data =>
        match getUpdatedAt data with
        | none => putAccept fields now
        | some cur =>
          if cur == "" then putAccept fields now
          else
            match headerValue header with
            | none => (.preconditionRequired cur, .ok data)
            | some e =>
              if e == cur then putAccept fields now
              else (.conflict cur, .ok data)
  | _ => (.invalidBody, stored)

/-- HeadAnnotation (src/lib/types.ts): one annotated attention head. -/
structure HeadAnnotation where
  layer : Int
  head : Int
  tags : List String
  descriptions : List (String × String)
deriving Repr, DecidableEq

/-- ProjectData (src/lib/types.ts): the single mutable document. -/
structure ProjectData where
  modelName : String
  numLayers : Int
  numHeads : Int
  annotations : List (String × HeadAnnotation)
  tags : List String
  createdAt : String
  updatedAt : String
deriving Repr, DecidableEq

/-- StoreAction (src/lib/types.ts). -/
inductive StoreAction where
  | SET_ANNOTATION (key : String) (ann : HeadAnnotation)
  | DELETE_ANNOTATION (key : String)
  | ADD_TAG (tag : String)
  | ADD_SUBTOPIC (major minor : String)
  | DELETE_SUBTOPIC (tag : String)
  | REMOVE_TAG (tag : String)
  | ADD_MAJOR (major : String)
  | DELETE_MAJOR (major : String)
  | MOVE_TAG_TO_MAJOR (tag nextMajor : String)
  | IMPORT_DATA (data : ProjectData)
  | IMPORT_LOCAL_DATA (data : ProjectData)
  | RESET
deriving Repr

/-- createEmptyProject (src/unnamed/part_001); the two `new Date()` calls
are modelled by the single clock reading `now`. -/
def createEmptyProject (now : String) : ProjectData :=
  { modelName := "Pythia-1.4B"
    numLayers := 24
    numHeads := 16
    annotations := []
    tags := []
    createdAt := now
    updatedAt := now }

/-- One step of the regex replacement of runs of whitespace by a single
hyphen: input.replace(whitespace-run-regex, "-"). -/
def collapseWs : List Char → List Char
  | [] => []
  | [c] => if c.isWhitespace then ['-'] else [c]
  | c :: d :: rest =>
    if c.isWhitespace && d.isWhitespace then collapseWs (d :: rest)
    else (if c.isWhitespace then '-' else c) :: collapseWs (d :: rest)

/-- normalizeCategoryPart (src/unnamed/part_001): trim, lowercase, collapse
whitespace runs to single hyphens. -/
def normalizeCategoryPart (input : String) : String :=
  String.mk (collapseWs ((trimChars input.data).map Char.toLower))

/-- parseTag (src/unnamed/part_001): split at every "/", normalize the
first part as the major; the rest rejoined, trimmed and normalized is the
minor, or null when empty. -/
def parseTag (tag : String) : String × Option String :=
  match splitOnSlash tag.data with
  | [] => ("", none)
  | majorRaw :: minorParts =>
    let major := normalizeCategoryPart (String.mk majorRaw)
    let minorRaw := trimChars (joinSlash minorParts)
    (major,
      if minorRaw.isEmpty then none
      else some (normalizeCategoryPart (String.mk minorRaw)))

/-- The tag-collection loop of SET_ANNOTATION: push each referenced tag not
already present. -/
def addMissing (tags : List String) (newT : List String) : List String :=
  newT.foldl (fun acc tag => if acc.contains tag then acc else acc ++ [tag]) tags

/-- JS Array.prototype.indexOf for strings (first index; length when
absent, which agrees with indexOf on elements of the list). -/
def jsIndexOf (l : List String) (a : String) : Nat :=
  l.findIdx (fun x => x == a)

/-- The dedup of MOVE_TAG_TO_MAJOR:
list.filter((tag, idx) => list.indexOf(tag) === idx), keeping first
occurrences. -/
def dedupFirst (l : List String) : List String :=
  (l.enum.filter (fun p => jsIndexOf l p.2 == p.1)).map (fun p => p.2)

/-- One entry of the description remapping loop of MOVE_TAG_TO_MAJOR: an
entry of the old tag is reassigned to the new tag unless the new tag
already holds a truthy (non-empty) description; any other entry is assigned
through unchanged. -/
def moveDescStep (oldTag nextTag : String) (acc : List (String × String))
    (e : String × String) : List (String × String) :=
  if e.1 == oldTag then
    match objGet acc nextTag with
    | none => objSet acc nextTag e.2
    | some d => if d == "" then objSet acc nextTag e.2 else acc
  else objSet acc e.1 e.2

/-- The description remapping loop of MOVE_TAG_TO_MAJOR, folding the step
over the entries into a fresh object. -/
def moveDescriptions (oldTag nextTag : String) (descs : List (String × String)) :
    List (String × String) :=
  descs.foldl (moveDescStep oldTag nextTag) []

/-- Per-annotation update of MOVE_TAG_TO_MAJOR: remap the old tag, dedup
keeping first occurrences, remap the descriptions. -/
def moveAnn (oldTag nextTag : String) (ann : HeadAnnotation) : HeadAnnotation :=
  let remapped := ann.tags.map (fun t => if t == oldTag then nextTag else t)
  { ann with
    tags := dedupFirst remapped
    descriptions := moveDescriptions oldTag nextTag ann.descriptions }

/-- The mutation reducer of src/unnamed/part_001 (the store variant the
claims cite); the clock reading `new Date().toISOString()` is the
parameter `now`.  ADD_SUBTOPIC and DELETE_SUBTOPIC have no case in the
source and fall through the default branch. -/
def reducer (state : ProjectData) (action : StoreAction) (now : String) : ProjectData :=
  match action with
  | .SET_ANNOTATION key ann =>
    { state with
      annotations := objSet state.annotations key ann
      tags := addMissing state.tags ann.tags
      updatedAt := now }
  | .DELETE_ANNOTATION key =>
    { state with annotations := objDelete state.annotations key, updatedAt := now }
  | .ADD_TAG tag =>
    if state.tags.contains tag then state
    else { state with tags := state.tags ++ [tag], updatedAt := now }
  | .ADD_MAJOR majorInput =>
    let major := normalizeCategoryPart majorInput
    if major == "" || state.tags.contains major then state
    else { state with tags := state.tags ++ [major], updatedAt := now }
  | .REMOVE_TAG tag =>
    { state with tags := state.tags.filter (fun t => !(t == tag)), updatedAt := now }
  | .DELETE_MAJOR majorInput =>
    let major := normalizeCategoryPart majorInput
    if major == "" then state
    else
      let removePre := major ++ "/"
      let removedTags := state.tags.filter (fun tag => tag == major || jsStartsWith tag removePre)
      if removedTags.isEmpty then state
      else
        { state with
          tags := state.tags.filter (fun tag => !(removedTags.contains tag))
          annotations := state.annotations.map (fun kv =>
            (kv.1,
              { kv.2 with
                tags := kv.2.tags.filter (fun tag => !(removedTags.contains tag))
                descriptions := kv.2.descriptions.filter (fun e => !(removedTags.contains e.1)) }))
          updatedAt := now }
  | .MOVE_TAG_TO_MAJOR tag nextMajorInput =>
    let nextMajor := normalizeCategoryPart nextMajorInput
    match (parseTag tag).2 with
    | none => state
    | some minorV =>
      if minorV == "" || nextMajor == "" then state
      else
        let nextTag := nextMajor ++ "/" ++ minorV
        if nextTag == tag then state
        else
          { state with
            tags := state.tags.filter (fun t => !(t == tag))
              ++ ([nextMajor, nextTag].filter
                    (fun t => !(t == "") && !(state.tags.contains t) && !(t == tag)))
            annotations := state.annotations.map (fun kv => (kv.1, moveAnn tag nextTag kv.2))
            updatedAt := now }
  | .IMPORT_DATA data =>
    { data with
      updatedAt := if data.updatedAt == "" then now else data.updatedAt
      createdAt := if data.createdAt == "" then now else data.createdAt }
  | .IMPORT_LOCAL_DATA data =>
    { data with
      updatedAt := now
      createdAt := if data.createdAt == "" then now else data.createdAt }
  | .RESET => createEmptyProject now
  | .ADD_SUBTOPIC _ _ => state
  | .DELETE_SUBTOPIC _ => state

/-- Client sync state (src/unnamed/part_001, StoreProvider refs): the
in-memory document, the last updatedAt obtained from or acknowledged by the
server, and the bootstrap flag. -/
structure EngineState where
  doc : ProjectData
  lastServerUpdateAt : Option String
  bootstrapComplete : Bool
deriving Repr, DecidableEq

/-- hasMeaningfulData (src/unnamed/part_001): some annotation or some tag. -/
def hasMeaningfulData (d : ProjectData) : Bool :=
  d.annotations.length > 0 || d.tags.length > 0

/-- toMillis on a nullable string: null maps to 0; the Date.parse
interpretation of a string is the abstract clock reading tm. -/
def toMillisOpt (tm : String → Int) : Option String → Int
  | none => 0
  | some s => tm s

/-- Result of saveToServer (src/unnamed/part_001). -/
inductive SaveResult where
  | ok (data : ProjectData)
  | conflict (currentUpdatedAt : Option String)
  | err
deriving Repr

/-- syncFromServer (src/unnamed/part_001) given the fetch result: skip
before bootstrap or on fetch failure; skip when the local document is
meaningful and strictly ahead of the last seen remote version; otherwise
apply the remote document (dispatching IMPORT_DATA) exactly when its
updatedAt is strictly newer than last seen, and always record the fetched
updatedAt.  The boolean reports whether the remote document was applied. -/
def syncFromServer (tm : String → Int) (now : String) (st : EngineState)
    (remote : Option ProjectData) : EngineState × Bool :=
  if st.bootstrapComplete = false then (st, false)
  else
    match remote with
    | none => (st, false)
    | some r =>
      let localUpdated := tm st.doc.updatedAt
      let lastSeen := toMillisOpt tm st.lastServerUpdateAt
      if hasMeaningfulData st.doc && decide (localUpdated > lastSeen) then (st, false)
      else
        let remoteUpdated := tm r.updatedAt
        if remoteUpdated > lastSeen then
          ({ doc := reducer st.doc (.IMPORT_DATA r) now
             lastServerUpdateAt := some r.updatedAt
             bootstrapComplete := st.bootstrapComplete }, true)
        else ({ st with lastServerUpdateAt := some r.updatedAt }, false)

/-- The response handling of the debounced remote write-back effect
(src/unnamed/part_001, lines 330-347): on success adopt the returned
document and record its updatedAt; on conflict record the server-reported
current updatedAt only when it is truthy
(if (result.currentUpdatedAt) ...) — a null or empty-string report leaves
last-seen-remote unchanged — and immediately run syncFromServer (whose
fetch result is the second argument); on error change nothing.  The
boolean reports whether the conflict-triggered poll applied a remote
document. -/
def handleSaveResult (tm : String → Int) (now : String) (st : EngineState)
    (result : SaveResult) (pollFetch : Option ProjectData) : EngineState × Bool :=
  match result with
  | .ok data =>
    ({ doc := reducer st.doc (.IMPORT_DATA data) now
       lastServerUpdateAt := some data.updatedAt
       bootstrapComplete := st.bootstrapComplete }, false)
  | .conflict cur =>
    let st1 :=
      match cur with
      | some c => if c == "" then st else { st with lastServerUpdateAt := some c }
      | none => st
    syncFromServer tm now st1 pollFetch
  | .err => (st, false)

/-- True exactly on the two import mutations, the only reducer branches
that may keep a foreign timestamp. -/
def isImportAction : StoreAction → Bool
  | .IMPORT_DATA _ => true
  | .IMPORT_LOCAL_DATA _ => true
  | _ => false

/-- Folding a sequence of upsert-annotation dispatches (key, annotation,
clock reading) through the reducer. -/
def applyUpserts (p : ProjectData) (acts : List (String × HeadAnnotation × String)) :
    ProjectData :=
  acts.foldl (fun st a => reducer st (.SET_ANNOTATION a.1 a.2.1) a.2.2) p

/-- Data-model invariant (spec section 3): every tag referenced by an
annotation appears in the project tag list. -/
def annTagsCovered (p : ProjectData) : Prop :=
  ∀ kv ∈ p.annotations, ∀ t ∈ kv.2.tags, t ∈ p.tags

/-- A concrete request body passing isValidProjectData, for witnesses. -/
def validFieldsW : List (String × JsonVal) :=
  [("modelName", .str "Pythia-1.4B"), ("numLayers", .num 24), ("numHeads", .num 16),
   ("annotations", .obj []), ("tags", .arr []), ("createdAt", .str "c0")]

/-- A concrete clock interpretation for witnesses. -/
def tmZero : String → Int := fun _ => 0

/-- A concrete project for the delete-major witness: majors m and n with
minors m/x and n/x, one annotation tagged with both minors. -/
def sampleProjectC3 : ProjectData :=
  { modelName := "Pythia-1.4B", numLayers := 24, numHeads := 16
    annotations := [("L0H0", { layer := 0, head := 0, tags := ["m/x", "n/x"],
                               descriptions := [("m/x", "dm"), ("n/x", "dn")] })]
    tags := ["m", "m/x", "n/x"], createdAt := "t0", updatedAt := "t0" }

/-- A concrete annotation for the reparent witness: already carries b/x
with a non-empty description besides the moved tag a/x. -/
def sampleAnnC4 : HeadAnnotation :=
  { layer := 0, head := 0, tags := ["a/x", "b/x"],
    descriptions := [("b/x", "db"), ("a/x", "da")] }

/-- A concrete upsert annotation for the tag-uniqueness witness. -/
def sampleAnnC5 : HeadAnnotation :=
  { layer := 0, head := 0, tags := ["t"], descriptions := [("t", "d")] }

/-- Claim C9: the StoreAction type and the category sidebar expect
ADD_SUBTOPIC to append major/minor to the tag list, but the reducer of
src/unnamed/part_001 has no ADD_SUBTOPIC case: the dispatch falls through
the default branch and every project is returned unchanged, so the subtopic
is never created. -/
theorem addSubtopicIsDropped (st : ProjectData) (major minor now : String) :
    reducer st (.ADD_SUBTOPIC major minor) now = st := rfl

/-- Claim C2 (amended): REMOVE_TAG removes t from the project tag list and
stamps updatedAt, but leaves every annotation, its tag list and its
description mapping, unchanged. -/
theorem removeTagFiltersOnlyTagList (st : ProjectData) (t now : String) :
    (reducer st (.REMOVE_TAG t) now).tags = st.tags.filter (fun x => !(x == t)) ∧
    (reducer st (.REMOVE_TAG t) now).annotations = st.annotations ∧
    (reducer st (.REMOVE_TAG t) now).updatedAt = now :=
  ⟨rfl, rfl, rfl⟩

/-- Claim C2 counterexample: removing tag a from a project whose only
annotation carries a with a description leaves that annotation still
listing a and still holding the description entry, contradicting the
claimed stripping of annotations. -/
theorem removeTagKeepsAnnotationTags :
    (reducer
        { modelName := "Pythia-1.4B", numLayers := 24, numHeads := 16
          annotations := [("L0H0", { layer := 0, head := 0, tags := ["a"],
                                     descriptions := [("a", "d")] })]
          tags := ["a"], createdAt := "t0", updatedAt := "t0" }
        (.REMOVE_TAG "a") "t1").tags = [] ∧
    (reducer
        { modelName := "Pythia-1.4B", numLayers := 24, numHeads := 16
          annotations := [("L0H0", { layer := 0, head := 0, tags := ["a"],
                                     descriptions := [("a", "d")] })]
          tags := ["a"], createdAt := "t0", updatedAt := "t0" }
        (.REMOVE_TAG "a") "t1").annotations
      = [("L0H0", { layer := 0, head := 0, tags := ["a"], descriptions := [("a", "d")] })] := by
  constructor <;> rfl

/-- Claim C10: when the store read reports missing, a valid PUT body is
accepted and persisted whatever the precondition header is (absent, stale
or otherwise), because both the precondition-required and the conflict
check are reached only when the stored document yields a string updatedAt. -/
theorem putMissingAcceptsAnyHeader (fields : List (String × JsonVal)) (now : String)
    (hvalid : isValidFields fields = true) :
    ∀ header : Option String,
      putCore .missing header (.obj fields) now
        = (.putOk (stampPayload fields now), .ok (stampPayload fields now)) := by
  intro header
  simp [putCore, hvalid, putAccept]

/-- Claim C10 witness: a concrete valid body is accepted against an empty
store both without a header and with a stale header value. -/
theorem putMissingAcceptsAnyHeaderWitness :
    putCore .missing none (.obj validFieldsW) "n1"
        = (.putOk (stampPayload validFieldsW "n1"), .ok (stampPayload validFieldsW "n1")) ∧
    putCore .missing (some "stale-version") (.obj validFieldsW) "n1"
        = (.putOk (stampPayload validFieldsW "n1"), .ok (stampPayload validFieldsW "n1")) :=
  ⟨putMissingAcceptsAnyHeader validFieldsW "n1" (by rfl) none,
   putMissingAcceptsAnyHeader validFieldsW "n1" (by rfl) (some "stale-version")⟩

/-- Claim C1 (amended): against a stored document whose updatedAt is a
truthy (non-empty) string, a valid PUT without the if-match-updated-at
header is answered precondition-required, and one whose header value
differs from the stored updatedAt is answered conflict carrying the stored
updatedAt; in both cases the store is left unchanged.  When the stored
updatedAt is the empty string it is falsy and both checks are skipped. -/
theorem putPreconditionAndConflict (data : List (String × JsonVal)) (body : JsonVal)
    (now cur : String)
    (hvalid : isValidProjectData body = true)
    (hcur : getUpdatedAt data = some cur) (hne : cur ≠ "") :
    putCore (.ok data) none body now = (.preconditionRequired cur, .ok data) ∧
    ∀ e : String, jsTrim e ≠ "" → jsTrim e ≠ cur →
      putCore (.ok data) (some e) body now = (.conflict cur, .ok data) := by
  cases body with
  | obj fields =>
    simp only [isValidProjectData] at hvalid
    have hne' : (cur == "") = false := by simp [hne]
    refine ⟨?_, ?_⟩
    · simp [putCore, hvalid, hcur, hne', headerValue]
    · intro e he1 he2
      simp [putCore, hvalid, hcur, hne', headerValue, he1, he2]
  | null => exact absurd hvalid (by simp [isValidProjectData])
  | bool b => exact absurd hvalid (by simp [isValidProjectData])
  | num n => exact absurd hvalid (by simp [isValidProjectData])
  | str s => exact absurd hvalid (by simp [isValidProjectData])
  | arr xs => exact absurd hvalid (by simp [isValidProjectData])

/-- Claim C1 counterexample: with the stored updatedAt being the empty
string (a string, so the claimed cases apply as stated, but falsy to the
source's guards), the headerless PUT and the stale-header PUT are both
accepted: the response is the stamped payload, not precondition-required
or conflict, and the stored document is replaced. -/
theorem putAcceptsWhenStoredUpdatedAtEmpty :
    putCore (.ok [("updatedAt", JsonVal.str "")]) none (.obj validFieldsW) "n1"
        = (.putOk (stampPayload validFieldsW "n1"), .ok (stampPayload validFieldsW "n1")) ∧
    putCore (.ok [("updatedAt", JsonVal.str "")]) (some "stale") (.obj validFieldsW) "n1"
        = (.putOk (stampPayload validFieldsW "n1"), .ok (stampPayload validFieldsW "n1")) ∧
    getUpdatedAt (stampPayload validFieldsW "n1") = some "n1" ∧
    ("n1" : String) ≠ "" := by
  refine ⟨rfl, rfl, rfl, by decide⟩

/-- Claim C1 witness: with stored updatedAt v1, the headerless PUT yields
precondition-required and a stale header v0 yields conflict v1, both
leaving the store at v1. -/
theorem putPreconditionAndConflictWitness :
    putCore (.ok [("updatedAt", JsonVal.str "v1")]) none (.obj validFieldsW) "n1"
        = (.preconditionRequired "v1", .ok [("updatedAt", JsonVal.str "v1")]) ∧
    putCore (.ok [("updatedAt", JsonVal.str "v1")]) (some "v0") (.obj validFieldsW) "n1"
        = (.conflict "v1", .ok [("updatedAt", JsonVal.str "v1")]) :=
  ⟨(putPreconditionAndConflict [("updatedAt", JsonVal.str "v1")] (.obj validFieldsW)
      "n1" "v1" (by rfl) (by rfl) (by decide)).1,
   (putPreconditionAndConflict [("updatedAt", JsonVal.str "v1")] (.obj validFieldsW)
      "n1" "v1" (by rfl) (by rfl) (by decide)).2 "v0" (by decide) (by decide)⟩

/-- Server side of a conflicting write: whenever the PUT core answers
conflict, the store is exactly what it was before the request. -/
theorem putCore_conflict_keeps_store (stored : ReadResult) (header : Option String)
    (body : JsonVal) (now cur : String)
    (h : (putCore stored header body now).1 = .conflict cur) :
    (putCore stored header body now).2 = stored := by
  cases body <;> simp only [putCore] at h ⊢
  case obj fields =>
    by_cases hv : isValidFields fields
    · simp only [hv, Bool.not_true, Bool.false_eq_true, if_false] at h ⊢
      cases stored with
      | invalid => rfl
      | missing => simp [putAccept] at h
      | ok data =>
        cases hdata : getUpdatedAt data with
        | none => simp only [hdata] at h ⊢; simp [putAccept] at h
        | some cur0 =>
          simp only [hdata] at h ⊢
          by_cases hc0 : (cur0 == "") = true
          · simp [hc0, putAccept] at h
          · simp only [hc0, Bool.false_eq_true, if_false] at h ⊢
            cases hh : headerValue header with
            | none => rfl
            | some e =>
              simp only [hh] at h ⊢
              by_cases he : (e == cur0) = true
              · simp [he, putAccept] at h
              · simp [he]
    · simp_all

/-- Claim C6 (amended): when the debounced write-back receives a conflict
whose server-reported current updatedAt is a truthy (non-empty) string,
the engine records it as last-seen-remote; an empty or absent reported
value leaves last-seen-remote unchanged.  In every conflict case the
conflict handling itself leaves the local document untouched and the
result is exactly an immediate run of the polling procedure; moreover a
PUT that answers conflict never changes the stored remote document. -/
theorem conflictRecordsVersionAndRepolls (tm : String → Int) (now : String)
    (st : EngineState) (remote : Option ProjectData) :
    (∀ c : String, c ≠ "" →
      handleSaveResult tm now st (.conflict (some c)) remote
          = syncFromServer tm now { st with lastServerUpdateAt := some c } remote ∧
      ({ st with lastServerUpdateAt := some c } : EngineState).doc = st.doc ∧
      ({ st with lastServerUpdateAt := some c } : EngineState).lastServerUpdateAt = some c) ∧
    (handleSaveResult tm now st (.conflict (some "")) remote
       = syncFromServer tm now st remote) ∧
    (handleSaveResult tm now st (.conflict none) remote
       = syncFromServer tm now st remote) ∧
    (∀ (stored : ReadResult) (header : Option String) (body : JsonVal) (now2 cur2 : String),
      (putCore stored header body now2).1 = .conflict cur2 →
      (putCore stored header body now2).2 = stored) := by
  refine ⟨?_, rfl, rfl, fun stored header body now2 cur2 h =>
    putCore_conflict_keeps_store stored header body now2 cur2 h⟩
  intro c hc
  have hc' : (c == "") = false := by simp [hc]
  refine ⟨?_, rfl, rfl⟩
  simp [handleSaveResult, hc']

/-- Claim C6 counterexample: a conflict whose reported current updatedAt is
the empty string (a string, passed through by saveToServer, reported
verbatim by the external-backend 409 path) is not recorded: starting from
an unknown last-seen-remote the engine still has none afterward, not the
reported empty string. -/
theorem conflictEmptyVersionNotRecorded :
    (handleSaveResult tmZero "n1"
        { doc := createEmptyProject "t0", lastServerUpdateAt := none, bootstrapComplete := true }
        (.conflict (some "")) none).1.lastServerUpdateAt = none ∧
    (none : Option String) ≠ some "" := by
  refine ⟨rfl, by decide⟩

/-- Claim C6 witness: a concrete non-empty conflict version c is recorded
and handed over to the poll, and a concrete conflicting PUT (stale header
v0 against stored v1) leaves the store unchanged. -/
theorem conflictRecordsVersionAndRepollsWitness :
    (handleSaveResult tmZero "n1"
        { doc := createEmptyProject "t0", lastServerUpdateAt := none, bootstrapComplete := true }
        (.conflict (some "c")) none
      = syncFromServer tmZero "n1"
          { doc := createEmptyProject "t0", lastServerUpdateAt := some "c",
            bootstrapComplete := true } none) ∧
    (putCore (.ok [("updatedAt", JsonVal.str "v1")]) (some "v0") (.obj validFieldsW) "n2").2
      = .ok [("updatedAt", JsonVal.str "v1")] :=
  ⟨((conflictRecordsVersionAndRepolls tmZero "n1"
      { doc := createEmptyProject "t0", lastServerUpdateAt := none, bootstrapComplete := true }
      none).1 "c" (by decide)).1,
   (conflictRecordsVersionAndRepolls tmZero "n1"
      { doc := createEmptyProject "t0", lastServerUpdateAt := none, bootstrapComplete := true }
      none).2.2.2 (.ok [("updatedAt", JsonVal.str "v1")]) (some "v0")
      (.obj validFieldsW) "n2" "v1" (by rfl)⟩

/-- Claim C7: two consecutive runs of the polling procedure against remote
fetches carrying the same updatedAt apply a remote document at most on the
first run; the second run never applies one, whatever the clock
interpretation, the engine state or the remote contents. -/
theorem pollIsIdempotent (tm : String → Int) (now1 now2 : String) (st : EngineState)
    (r1 r2 : ProjectData) (h : r1.updatedAt = r2.updatedAt) :
    (syncFromServer tm now2 (syncFromServer tm now1 st (some r1)).1 (some r2)).2 = false := by
  simp only [syncFromServer]
  split_ifs <;> simp_all [toMillisOpt, lt_self_iff_false]

/-- Claim C7 witness: a concrete second poll with the same remote updatedAt
applies nothing. -/
theorem pollIsIdempotentWitness :
    (syncFromServer tmZero "n2"
        (syncFromServer tmZero "n1"
          { doc := createEmptyProject "t0", lastServerUpdateAt := none,
            bootstrapComplete := true }
          (some (createEmptyProject "r1"))).1
        (some (createEmptyProject "r1"))).2 = false :=
  pollIsIdempotent tmZero "n1" "n2"
    { doc := createEmptyProject "t0", lastServerUpdateAt := none, bootstrapComplete := true }
    (createEmptyProject "r1") (createEmptyProject "r1") rfl

/-- Claim C8 (amended): every non-import mutation either rejects the
action, returning the project unchanged, or stamps the resulting updatedAt
with the clock reading taken at that mutation; the code never compares the
new reading with the previous updatedAt, so strict increase holds only as
far as the clock readings themselves strictly increase. -/
theorem acceptedMutationStampsClockReading (st : ProjectData) (a : StoreAction)
    (now : String) (h : isImportAction a = false) :
    reducer st a now = st ∨ (reducer st a now).updatedAt = now := by
  cases a with
  | SET_ANNOTATION key ann => exact Or.inr rfl
  | DELETE_ANNOTATION key => exact Or.inr rfl
  | ADD_TAG tag =>
    by_cases hc : tag ∈ st.tags
    · exact Or.inl (by simp [reducer, hc])
    · exact Or.inr (by simp [reducer, hc])
  | ADD_SUBTOPIC major minor => exact Or.inl rfl
  | DELETE_SUBTOPIC tag => exact Or.inl rfl
  | REMOVE_TAG tag => exact Or.inr rfl
  | ADD_MAJOR majorInput =>
    by_cases hc : (normalizeCategoryPart majorInput == ""
        || st.tags.contains (normalizeCategoryPart majorInput)) = true
    · exact Or.inl (by simp only [reducer, hc, if_true])
    · exact Or.inr (by simp only [reducer, hc, Bool.false_eq_true, if_false])
  | DELETE_MAJOR majorInput =>
    by_cases h1 : (normalizeCategoryPart majorInput == "") = true
    · exact Or.inl (by simp only [reducer, h1, if_true])
    · by_cases h2 : (st.tags.filter (fun tag =>
          tag == normalizeCategoryPart majorInput ||
          jsStartsWith tag (normalizeCategoryPart majorInput ++ "/"))).isEmpty = true
      · exact Or.inl (by
          simp only [reducer, h1, Bool.false_eq_true, if_false]
          simp only [h2, if_true])
      · exact Or.inr (by
          simp only [reducer, h1, Bool.false_eq_true, if_false]
          simp only [h2, Bool.false_eq_true, if_false])
  | MOVE_TAG_TO_MAJOR tag nextMajorInput =>
    cases hm : (parseTag tag).2 with
    | none => exact Or.inl (by simp only [reducer, hm])
    | some minorV =>
      by_cases h1 : (minorV == "" || normalizeCategoryPart nextMajorInput == "") = true
      · exact Or.inl (by simp only [reducer, hm, h1, if_true])
      · by_cases h2 : (normalizeCategoryPart nextMajorInput ++ "/" ++ minorV == tag) = true
        · exact Or.inl (by
            simp only [reducer, hm, h1, Bool.false_eq_true, if_false]
            simp only [h2, if_true])
        · exact Or.inr (by
            simp only [reducer, hm, h1, Bool.false_eq_true, if_false]
            simp only [h2, Bool.false_eq_true, if_false])
  | IMPORT_DATA d => simp [isImportAction] at h
  | IMPORT_LOCAL_DATA d => simp [isImportAction] at h
  | RESET => exact Or.inr rfl

/-- Claim C8 witness: a concrete accepted ADD_TAG stamps the new clock
reading. -/
theorem acceptedMutationStampsClockReadingWitness :
    reducer (createEmptyProject "t0") (.ADD_TAG "a") "t1" = createEmptyProject "t0" ∨
    (reducer (createEmptyProject "t0") (.ADD_TAG "a") "t1").updatedAt = "t1" :=
  acceptedMutationStampsClockReading (createEmptyProject "t0") (.ADD_TAG "a") "t1" rfl

/-- Claim C8 counterexample: an accepted, state-changing REMOVE_TAG whose
clock reading equals the previous updatedAt (two mutations inside the same
millisecond) yields an updatedAt equal to, not strictly later than, the
previous one. -/
theorem sameMillisecondMutationKeepsTimestamp :
    (reducer
        { modelName := "Pythia-1.4B", numLayers := 24, numHeads := 16, annotations := []
          tags := ["a"], createdAt := "2024-01-01T00:00:00.000Z"
          updatedAt := "2024-01-01T00:00:00.000Z" }
        (.REMOVE_TAG "a") "2024-01-01T00:00:00.000Z").tags ≠ ["a"] ∧
    (reducer
        { modelName := "Pythia-1.4B", numLayers := 24, numHeads := 16, annotations := []
          tags := ["a"], createdAt := "2024-01-01T00:00:00.000Z"
          updatedAt := "2024-01-01T00:00:00.000Z" }
        (.REMOVE_TAG "a") "2024-01-01T00:00:00.000Z").updatedAt
      = "2024-01-01T00:00:00.000Z" := by
  constructor
  · decide
  · rfl

/-- Membership in the removed-tag set built from the filtered tag list:
a string is in it exactly when it is in the tag list and matches. -/
theorem containsFilter (l : List String) (p : String → Bool) (a : String) :
    (l.filter p).contains a = (l.contains a && p a) := by
  induction l with
  | nil => simp
  | cons x xs ih =>
    by_cases hx : x = a
    · subst hx
      by_cases hp : p x = true <;> simp [hp, List.filter_cons, ih]
    · have hax : ¬a = x := fun hh => hx hh.symm
      by_cases hp : p x = true <;> simp [hp, List.filter_cons, hx, hax, ih]

/-- Claim C3 (amended): deleting major M (already normalized, non-empty)
removes from the tag list exactly the tags equal to M or starting with M/,
and strips from every annotation's tag list and description mapping exactly
those matching tags that also occur in the project tag list; all other tags
and entries, including matching annotation tags dangling outside the tag
list, are untouched, and the mutation is a no-op when no tag in the tag
list matches. -/
theorem deleteMajorCascades (st : ProjectData) (M now : String)
    (hM : normalizeCategoryPart M = M) (hne : M ≠ "") :
    ((st.tags.filter (fun t => t == M || jsStartsWith t (M ++ "/"))).isEmpty = true →
      reducer st (.DELETE_MAJOR M) now = st) ∧
    ((st.tags.filter (fun t => t == M || jsStartsWith t (M ++ "/"))).isEmpty = false →
      (reducer st (.DELETE_MAJOR M) now).tags
          = st.tags.filter (fun t => !(t == M || jsStartsWith t (M ++ "/"))) ∧
      (reducer st (.DELETE_MAJOR M) now).annotations
          = st.annotations.map (fun kv =>
              (kv.1,
                { kv.2 with
                  tags := kv.2.tags.filter
                    (fun t => !(st.tags.contains t && (t == M || jsStartsWith t (M ++ "/"))))
                  descriptions := kv.2.descriptions.filter
                    (fun e => !(st.tags.contains e.1 &&
                      (e.1 == M || jsStartsWith e.1 (M ++ "/")))) })) ∧
      (reducer st (.DELETE_MAJOR M) now).updatedAt = now) := by
  have hne' : (M == "") = false := by simp [hne]
  constructor
  · intro hempty
    simp only [reducer, hM, hne', Bool.false_eq_true, if_false]
    simp only [hempty, if_true]
  · intro hnonempty
    simp only [reducer, hM, hne', Bool.false_eq_true, if_false]
    simp only [hnonempty, Bool.false_eq_true, if_false]
    refine ⟨?_, ?_, by trivial⟩
    · refine List.filter_congr ?_
      intro t ht
      rw [containsFilter]
      have : st.tags.contains t = true := by simp [ht]
      rw [this]
      simp
    · simp only [containsFilter]

/-- Claim C3 counterexample: with tag list [m] and an annotation carrying
the dangling tag m/x (reachable, since REMOVE_TAG never strips
annotations), deleting major m empties the tag list but leaves m/x, a tag
starting with m/, in the annotation together with its description. -/
theorem deleteMajorKeepsDanglingTag :
    (reducer
        { modelName := "Pythia-1.4B", numLayers := 24, numHeads := 16
          annotations := [("L0H0", { layer := 0, head := 0, tags := ["m/x"],
                                     descriptions := [("m/x", "d")] })]
          tags := ["m"], createdAt := "t0", updatedAt := "t0" }
        (.DELETE_MAJOR "m") "t1").tags = [] ∧
    (reducer
        { modelName := "Pythia-1.4B", numLayers := 24, numHeads := 16
          annotations := [("L0H0", { layer := 0, head := 0, tags := ["m/x"],
                                     descriptions := [("m/x", "d")] })]
          tags := ["m"], createdAt := "t0", updatedAt := "t0" }
        (.DELETE_MAJOR "m") "t1").annotations
      = [("L0H0", { layer := 0, head := 0, tags := ["m/x"], descriptions := [("m/x", "d")] })] ∧
    jsStartsWith "m/x" ("m" ++ "/") = true := by
  refine ⟨?_, ?_, ?_⟩ <;> decide

/-- Claim C3 witness: deleting major m from the sample project removes m
and m/x everywhere while n/x and its description survive. -/
theorem deleteMajorCascadesWitness :
    (reducer sampleProjectC3 (.DELETE_MAJOR "m") "t1").tags
        = sampleProjectC3.tags.filter (fun t => !(t == "m" || jsStartsWith t ("m" ++ "/"))) ∧
    (reducer sampleProjectC3 (.DELETE_MAJOR "m") "t1").annotations
        = sampleProjectC3.annotations.map (fun kv =>
            (kv.1,
              { kv.2 with
                tags := kv.2.tags.filter
                  (fun t => !(sampleProjectC3.tags.contains t &&
                    (t == "m" || jsStartsWith t ("m" ++ "/"))))
                descriptions := kv.2.descriptions.filter
                  (fun e => !(sampleProjectC3.tags.contains e.1 &&
                    (e.1 == "m" || jsStartsWith e.1 ("m" ++ "/")))) })) ∧
    (reducer sampleProjectC3 (.DELETE_MAJOR "m") "t1").updatedAt = "t1" :=
  (deleteMajorCascades sampleProjectC3 "m" "t1" (by rfl) (by decide)).2 (by rfl)

/-- Object assignment then lookup: the assigned key reads back the new
value, any other key is unaffected. -/
theorem objGet_objSet {α : Type} (m : List (String × α)) (k k' : String) (v : α) :
    objGet (objSet m k v) k' = if k' = k then some v else objGet m k' := by
  induction m with
  | nil =>
    by_cases h : k' = k
    · subst h; simp [objSet, objGet]
    · simp [objSet, objGet, h, Ne.symm h]
  | cons p rest ih =>
    simp only [objSet]
    by_cases hp : p.1 = k
    · by_cases h : k' = k
      · subst h; simp [objGet, hp]
      · have hpk : ¬p.1 = k' := by rw [hp]; exact Ne.symm h
        simp [objGet, hp, h, Ne.symm h, hpk]
    · by_cases h : k' = k
      · subst h
        simp [objGet, hp, ih]
      · by_cases hpk : p.1 = k'
        · simp [objGet, hp, hpk, h]
        · simp [objGet, hp, hpk, h, ih]

/-- On a unique-key object, a successful lookup splits the list around its
entry, with the key absent from the tail. -/
theorem objGet_split {α : Type} (m : List (String × α)) (k : String) (v : α)
    (hnd : (m.map Prod.fst).Nodup) (h : objGet m k = some v) :
    ∃ pre post, m = pre ++ (k, v) :: post ∧ ∀ e ∈ post, e.1 ≠ k := by
  induction m with
  | nil => simp [objGet] at h
  | cons p rest ih =>
    obtain ⟨p1, p2⟩ := p
    rw [List.map_cons] at hnd
    have hhead := (List.nodup_cons.mp hnd).1
    have htail := (List.nodup_cons.mp hnd).2
    by_cases hp : p1 = k
    · subst hp
      have hv : p2 = v := by simpa [objGet] using h
      subst hv
      refine ⟨[], rest, rfl, ?_⟩
      intro e he hek
      have hm : e.1 ∈ List.map Prod.fst rest := List.mem_map_of_mem Prod.fst he
      rw [hek] at hm
      exact hhead hm
    · have h' : objGet rest k = some v := by simpa [objGet, hp] using h
      obtain ⟨pre, post, heq, hpost⟩ := ih htail h'
      refine ⟨(p1, p2) :: pre, post, ?_, hpost⟩
      rw [heq]
      rfl

/-- Folding the description-remapping step over entries that never mention
the new tag preserves a non-empty description already recorded for it. -/
theorem moveDescriptions_go_keeps (oldTag nextTag : String) (d : String)
    (hdne : d ≠ "") (post : List (String × String)) :
    ∀ acc : List (String × String), objGet acc nextTag = some d →
      (∀ e ∈ post, e.1 ≠ nextTag) →
      objGet (post.foldl (moveDescStep oldTag nextTag) acc) nextTag = some d := by
  induction post with
  | nil => intro acc hacc _; simpa using hacc
  | cons e rest ih =>
    intro acc hacc hfresh
    simp only [List.foldl_cons]
    by_cases he : (e.1 == oldTag) = true
    · have hstep : moveDescStep oldTag nextTag acc e = acc := by
        have hd0 : (d == "") = false := by simp [hdne]
        simp [moveDescStep, he, hacc, hd0]
      rw [hstep]
      exact ih acc hacc (fun x hx => hfresh x (List.mem_cons_of_mem e hx))
    · have hstep : moveDescStep oldTag nextTag acc e = objSet acc e.1 e.2 := by
        simp [moveDescStep, he]
      rw [hstep]
      refine ih (objSet acc e.1 e.2) ?_ (fun x hx => hfresh x (List.mem_cons_of_mem e hx))
      rw [objGet_objSet]
      have hx : ¬nextTag = e.1 := fun hh => (hfresh e (List.mem_cons_self e rest)) hh.symm
      simp [hx, hacc]

/-- The first-occurrence dedup of MOVE_TAG_TO_MAJOR always yields a
duplicate-free list. -/
theorem dedupFirst_nodup (l : List String) : (dedupFirst l).Nodup := by
  unfold dedupFirst
  have henum : l.enum.Nodup := by
    have hmap : (l.enum.map Prod.fst).Nodup := by
      rw [List.enum_map_fst]
      exact List.nodup_range l.length
    exact List.Nodup.of_map Prod.fst hmap
  refine List.Nodup.map_on ?_ (List.Nodup.filter _ henum)
  intro x hx y hy hxy
  have hx' := (List.mem_filter.mp hx).2
  have hy' := (List.mem_filter.mp hy).2
  have hxi : jsIndexOf l x.2 = x.1 := by simpa using hx'
  have hyi : jsIndexOf l y.2 = y.1 := by simpa using hy'
  have h1 : x.1 = y.1 := by rw [← hxi, ← hyi, hxy]
  obtain ⟨xa, xb⟩ := x
  obtain ⟨ya, yb⟩ := y
  simp_all

/-- Claim C4 (amended): MOVE_TAG_TO_MAJOR is a no-op when the source tag
has no minor part, when the target major normalizes to empty, or when the
new name equals the old name; otherwise every annotation is rewritten by
moveAnn, whose deduplication leaves the new tag at most once in the
tag list, and which keeps a pre-existing non-empty description of the new
tag rather than overwriting it with the moved tag's description (an empty
pre-existing description, being falsy, may be overwritten). -/
theorem moveTagNoDupNoOverwrite (st : ProjectData) (tag nm now : String) :
    ((parseTag tag).2 = none → reducer st (.MOVE_TAG_TO_MAJOR tag nm) now = st) ∧
    (normalizeCategoryPart nm = "" → reducer st (.MOVE_TAG_TO_MAJOR tag nm) now = st) ∧
    (∀ mv : String, (parseTag tag).2 = some mv →
      normalizeCategoryPart nm ++ "/" ++ mv = tag →
      reducer st (.MOVE_TAG_TO_MAJOR tag nm) now = st) ∧
    (∀ mv : String, (parseTag tag).2 = some mv → mv ≠ "" →
      normalizeCategoryPart nm ≠ "" → normalizeCategoryPart nm ++ "/" ++ mv ≠ tag →
      (reducer st (.MOVE_TAG_TO_MAJOR tag nm) now).annotations
        = st.annotations.map (fun kv =>
            (kv.1, moveAnn tag (normalizeCategoryPart nm ++ "/" ++ mv) kv.2))) ∧
    (∀ (oldTag nextTag : String) (ann : HeadAnnotation),
      (moveAnn oldTag nextTag ann).tags.count nextTag ≤ 1) ∧
    (∀ (oldTag nextTag : String) (ann : HeadAnnotation) (d : String),
      nextTag ≠ oldTag → (ann.descriptions.map Prod.fst).Nodup →
      objGet ann.descriptions nextTag = some d → d ≠ "" →
      objGet (moveAnn oldTag nextTag ann).descriptions nextTag = some d) := by
  refine ⟨?_, ?_, ?_, ?_, ?_, ?_⟩
  · intro h1
    simp only [reducer, h1]
  · intro h2
    cases hm : (parseTag tag).2 with
    | none => simp only [reducer, hm]
    | some mv =>
      simp only [reducer, hm]
      have hc : (mv == "" || normalizeCategoryPart nm == "") = true := by simp [h2]
      simp only [hc, if_true]
  · intro mv hm heq
    simp only [reducer, hm]
    by_cases hc : (mv == "" || normalizeCategoryPart nm == "") = true
    · simp only [hc, if_true]
    · simp only [hc, Bool.false_eq_true, if_false]
      have hc2 : (normalizeCategoryPart nm ++ "/" ++ mv == tag) = true := by simp [heq]
      simp only [hc2, if_true]
  · intro mv hm h1 h2 h3
    simp only [reducer, hm]
    have hc : (mv == "" || normalizeCategoryPart nm == "") = false := by simp [h1, h2]
    simp only [hc, Bool.false_eq_true, if_false]
    have hc2 : (normalizeCategoryPart nm ++ "/" ++ mv == tag) = false := by simp [h3]
    simp only [hc2, Bool.false_eq_true, if_false]
  · intro oldTag nextTag ann
    exact List.nodup_iff_count_le_one.mp (dedupFirst_nodup _) nextTag
  · intro oldTag nextTag ann d hne hnd hget hdne
    obtain ⟨pre, post, heq, hpost⟩ := objGet_split ann.descriptions nextTag d hnd hget
    show objGet (moveDescriptions oldTag nextTag ann.descriptions) nextTag = some d
    unfold moveDescriptions
    rw [heq, List.foldl_append, List.foldl_cons]
    have hstep : ∀ acc : List (String × String),
        moveDescStep oldTag nextTag acc (nextTag, d) = objSet acc nextTag d := by
      intro acc
      have hfst : (nextTag == oldTag) = false := by simp [hne]
      simp [moveDescStep, hfst]
    rw [hstep]
    apply moveDescriptions_go_keeps oldTag nextTag d hdne post _ ?_ hpost
    rw [objGet_objSet]
    simp

/-- Claim C4 counterexample: moving a/x to major b when the annotation
already carries b/x with the empty-string description (tags [a/x, b/x],
descriptions b/x upserted empty, a/x described d): the falsy check of the
source lets a/x's description d overwrite the pre-existing empty
description of b/x, so the original description is not kept. -/
theorem moveTagOverwritesEmptyDescription :
    (reducer
        { modelName := "Pythia-1.4B", numLayers := 24, numHeads := 16
          annotations := [("L0H0", { layer := 0, head := 0, tags := ["a/x", "b/x"],
                                     descriptions := [("b/x", ""), ("a/x", "d")] })]
          tags := ["a", "a/x", "b", "b/x"], createdAt := "t0", updatedAt := "t0" }
        (.MOVE_TAG_TO_MAJOR "a/x" "b") "t1").annotations
      = [("L0H0", { layer := 0, head := 0, tags := ["b/x"],
                    descriptions := [("b/x", "d")] })] ∧
    ("d" : String) ≠ "" := by
  refine ⟨?_, by decide⟩
  rfl

/-- Claim C4 witness: at concrete inputs the no-op branch fires when the
new name equals the old name, the deduplicated tag list holds b/x at most
once, and the pre-existing non-empty description db of b/x survives the
move of a/x. -/
theorem moveTagNoDupNoOverwriteWitness :
    reducer sampleProjectC3 (.MOVE_TAG_TO_MAJOR "a/x" "a") "t1" = sampleProjectC3 ∧
    (moveAnn "a/x" "b/x" sampleAnnC4).tags.count "b/x" ≤ 1 ∧
    objGet (moveAnn "a/x" "b/x" sampleAnnC4).descriptions "b/x" = some "db" :=
  ⟨(moveTagNoDupNoOverwrite sampleProjectC3 "a/x" "a" "t1").2.2.1 "x" (by rfl) (by rfl),
   (moveTagNoDupNoOverwrite sampleProjectC3 "a/x" "a" "t1").2.2.2.2.1 "a/x" "b/x" sampleAnnC4,
   (moveTagNoDupNoOverwrite sampleProjectC3 "a/x" "a" "t1").2.2.2.2.2 "a/x" "b/x" sampleAnnC4
     "db" (by decide) (by decide) (by rfl) (by decide)⟩

/-- The append-if-absent fold never loses a tag already present. -/
theorem mem_addMissing_left (l : List String) :
    ∀ acc : List String, ∀ a : String, a ∈ acc → a ∈ addMissing acc l := by
  induction l with
  | nil => intro acc a ha; simpa [addMissing] using ha
  | cons t rest ih =>
    intro acc a ha
    show a ∈ addMissing (if acc.contains t then acc else acc ++ [t]) rest
    by_cases hc : acc.contains t = true
    · rw [if_pos hc]
      exact ih acc a ha
    · rw [if_neg hc]
      exact ih (acc ++ [t]) a (List.mem_append_left _ ha)

/-- The append-if-absent fold puts every referenced tag in the list. -/
theorem mem_addMissing_right (l : List String) :
    ∀ acc : List String, ∀ a : String, a ∈ l → a ∈ addMissing acc l := by
  induction l with
  | nil => intro acc a ha; simp at ha
  | cons t rest ih =>
    intro acc a ha
    show a ∈ addMissing (if acc.contains t then acc else acc ++ [t]) rest
    rcases List.mem_cons.mp ha with heq | hrest
    · subst heq
      by_cases hc : acc.contains a = true
      · rw [if_pos hc]
        exact mem_addMissing_left rest acc a (by simpa using hc)
      · rw [if_neg hc]
        exact mem_addMissing_left rest (acc ++ [a]) a (List.mem_append_right _ (by simp))
    · by_cases hc : acc.contains t = true
      · rw [if_pos hc]; exact ih acc a hrest
      · rw [if_neg hc]; exact ih (acc ++ [t]) a hrest

/-- The append-if-absent fold preserves freedom from duplicates. -/
theorem nodup_addMissing (l : List String) :
    ∀ acc : List String, acc.Nodup → (addMissing acc l).Nodup := by
  induction l with
  | nil => intro acc h; simpa [addMissing] using h
  | cons t rest ih =>
    intro acc h
    show (addMissing (if acc.contains t then acc else acc ++ [t]) rest).Nodup
    by_cases hc : acc.contains t = true
    · rw [if_pos hc]; exact ih acc h
    · rw [if_neg hc]
      refine ih (acc ++ [t]) ?_
      have ht : t ∉ acc := by simpa using hc
      simp [List.nodup_append, h, ht]

/-- Upsert sequences preserve a duplicate-free tag list. -/
theorem applyUpserts_tags_nodup (acts : List (String × HeadAnnotation × String)) :
    ∀ p : ProjectData, p.tags.Nodup → (applyUpserts p acts).tags.Nodup := by
  induction acts with
  | nil => intro p h; simpa [applyUpserts] using h
  | cons a rest ih =>
    intro p h
    show (applyUpserts (reducer p (.SET_ANNOTATION a.1 a.2.1) a.2.2) rest).tags.Nodup
    exact ih _ (nodup_addMissing a.2.1.tags p.tags h)

/-- Upsert sequences never remove a tag from the tag list. -/
theorem applyUpserts_tags_mem (acts : List (String × HeadAnnotation × String)) :
    ∀ p : ProjectData, ∀ T : String, T ∈ p.tags → T ∈ (applyUpserts p acts).tags := by
  induction acts with
  | nil => intro p T h; simpa [applyUpserts] using h
  | cons a rest ih =>
    intro p T h
    show T ∈ (applyUpserts (reducer p (.SET_ANNOTATION a.1 a.2.1) a.2.2) rest).tags
    exact ih _ T (mem_addMissing_left a.2.1.tags p.tags T h)

/-- Claim C5: starting from a project (duplicate-free tag list per the data
model, annotation tags covered by the tag list), after any sequence of
upsert-annotation mutations in which some upsert references tag T, the tag
list contains T exactly once, however many annotations reference it. -/
theorem upsertedTagListedExactlyOnce (p : ProjectData)
    (hnd : p.tags.Nodup) (hcov : annTagsCovered p)
    (acts : List (String × HeadAnnotation × String)) (T : String)
    (hT : ∃ a ∈ acts, T ∈ a.2.1.tags) :
    (applyUpserts p acts).tags.count T = 1 := by
  obtain ⟨a, ha, hTa⟩ := hT
  obtain ⟨l1, l2, rfl⟩ := List.append_of_mem ha
  have hsplit : applyUpserts p (l1 ++ a :: l2)
      = applyUpserts (reducer (applyUpserts p l1) (.SET_ANNOTATION a.1 a.2.1) a.2.2) l2 := by
    unfold applyUpserts
    rw [List.foldl_append, List.foldl_cons]
  rw [hsplit]
  have hnd1 : (applyUpserts p l1).tags.Nodup := applyUpserts_tags_nodup l1 p hnd
  have hmem2 : T ∈ (reducer (applyUpserts p l1) (.SET_ANNOTATION a.1 a.2.1) a.2.2).tags :=
    mem_addMissing_right a.2.1.tags (applyUpserts p l1).tags T hTa
  have hnd2 : (reducer (applyUpserts p l1) (.SET_ANNOTATION a.1 a.2.1) a.2.2).tags.Nodup :=
    nodup_addMissing a.2.1.tags (applyUpserts p l1).tags hnd1
  exact List.count_eq_one_of_mem
    (applyUpserts_tags_nodup l2 _ hnd2)
    (applyUpserts_tags_mem l2 _ T hmem2)

/-- Claim C5 witness: upserting one annotation that references tag t into
the empty project leaves t exactly once in the tag list. -/
theorem upsertedTagListedExactlyOnceWitness :
    (applyUpserts (createEmptyProject "t0") [("L0H0", sampleAnnC5, "t1")]).tags.count "t" = 1 :=
  upsertedTagListedExactlyOnce (createEmptyProject "t0") (by decide)
    (by intro kv hkv; simp [createEmptyProject] at hkv)
    [("L0H0", sampleAnnC5, "t1")] "t" ⟨("L0H0", sampleAnnC5, "t1"), by decide, by decide⟩

end HbbGui
